import Mathlib

/-!
Verification of the HUML lexical analysis engine (hand-written lezer
external tokenizers) against its natural-language specification.

The tokenizers are shallowly embedded: the source buffer is a `List Int`
of character codes, `peek` past the end of the buffer yields `-1` exactly
as lezer's `input.peek` does (the embedding represents end-of-input by
the end of the list), and each scanner is a function from the current
context and the buffer suffix at the scan origin to `Option` of the
accepted token data (`none` models a decline, which consumes nothing).
-/

-- Character code constants, as in the source.
def NEWLINE : Int := 10
def CR : Int := 13
def SPACE : Int := 32
def TAB : Int := 9
def QUOTE : Int := 34
def BACKTICK : Int := 96
def BACKSLASH : Int := 92
def DASH : Int := 45
def UNDERSCORE : Int := 95
def PLUS : Int := 43
def DOT : Int := 46
def DIGIT_0 : Int := 48
def DIGIT_1 : Int := 49
def DIGIT_7 : Int := 55
def DIGIT_9 : Int := 57
def LOWER_E : Int := 101
def UPPER_E : Int := 69
def LOWER_X : Int := 120
def UPPER_X : Int := 88
def LOWER_B : Int := 98
def UPPER_B : Int := 66
def LOWER_O : Int := 111
def UPPER_O : Int := 79
def LOWER_U : Int := 117

-- Character class helpers, translated from the source arrow functions.
def isAlpha (c : Int) : Bool :=
  decide ((97 ≤ c ∧ c ≤ 122) ∨ (65 ≤ c ∧ c ≤ 90) ∨ c = UNDERSCORE)

def isDigit (c : Int) : Bool :=
  decide (DIGIT_0 ≤ c ∧ c ≤ DIGIT_9)

def isAlphaNum (c : Int) : Bool :=
  isAlpha c || isDigit c || decide (c = DASH)

def isHex (c : Int) : Bool :=
  isDigit c || decide (97 ≤ c ∧ c ≤ 102) || decide (65 ≤ c ∧ c ≤ 70)

/-- Token kinds produced by the indentation tokenizer; `Other` stands for
every other terminal the parser can shift (the context tracker's shift
function treats all of them alike). -/
inductive Tok where
  | Indent : Tok
  | Dedent : Tok
  | Newline : Tok
  | Other : Tok
deriving DecidableEq, Repr

/-- Kinds produced by the multiline-string tokenizer. -/
inductive MLKind where
  | BlockString : MLKind
  | FoldedString : MLKind
deriving DecidableEq, Repr

/-- The context tracker's shift function (`trackIndent` in the source):
`term == Indent ? context + 2 : term == Dedent ? context - 2 : context`. -/
def shift (ctx : Int) (t : Tok) : Int :=
  if t = Tok.Indent then ctx + 2 else if t = Tok.Dedent then ctx - 2 else ctx

/-- The whitespace-counting loop shared by the tokenizers: counts a run of
space/tab characters and returns the count together with the remaining
suffix. -/
def countWs : List Int → Nat × List Int
  | [] => (0, [])
  | c :: rest =>
    if c = SPACE ∨ c = TAB then
      ((countWs rest).1 + 1, (countWs rest).2)
    else (0, c :: rest)

/-- The `indentation` external tokenizer. Returns the accepted token kind
together with the number of characters consumed, or `none` on decline.
The buffer list is the suffix of the document at the scan origin, and the
scan origin sits on the line terminator (or at end of input). -/
def indentation (ctx : Int) (l : List Int) : Option (Tok × Nat) :=
  match l with
  | [] => if 0 < ctx then some (Tok.Dedent, 0) else none
  | c :: rest =>
    if c ≠ NEWLINE ∧ c ≠ CR then none
    else
      match countWs rest with
      | (spaces, after) =>
        match after with
        | [] => some (Tok.Newline, 1)
        | d :: _ =>
          if d = NEWLINE ∨ d = CR then some (Tok.Newline, 1)
          else if ctx < (spaces : Int) then some (Tok.Indent, 1 + spaces)
          else if (spaces : Int) < ctx then some (Tok.Dedent, 0)
          else some (Tok.Newline, 1 + spaces)

/-- Whether the buffer suffix starts with three consecutive copies of the
fence character `f` (lezer peeks past end of input as `-1`, which never
equals a fence character, so a short suffix has no fence). -/
def fenceAt (f : Int) : List Int → Bool
  | a :: b :: c :: _ => decide (a = f ∧ b = f ∧ c = f)
  | _ => false

def MAX_LENGTH : Nat := 1000000

/-- The body loop of the `multilineStrings` tokenizer. `afterNL` is true
while the loop is inside the whitespace run that follows a consumed line
terminator (`ind` counts that run); `consumed` counts characters advanced
past the opening fence; `length` is the loop's guard counter. Returns the
number of characters consumed by an accept, `none` on decline. -/
def mlScan (ctx : Int) (f : Int) :
    Bool → Nat → Nat → Nat → List Int → Option Nat
  | true, ind, consumed, length, c :: rest =>
    if c = SPACE ∨ c = TAB then
      mlScan ctx f true (ind + 1) (consumed + 1) (length + 1) rest
    else if fenceAt f (c :: rest) then
      if (ind : Int) = ctx then some (consumed + 3) else none
    else if MAX_LENGTH ≤ length then some consumed
    else if c = NEWLINE ∨ c = CR then
      mlScan ctx f true 0 (consumed + 1) (length + 1) rest
    else if c = BACKSLASH then
      match rest with
      | [] => mlScan ctx f false 0 (consumed + 1) (length + 2) []
      | _ :: rest2 => mlScan ctx f false 0 (consumed + 2) (length + 2) rest2
    else
      mlScan ctx f false 0 (consumed + 1) (length + 1) rest
  | true, _, consumed, length, [] =>
    if MAX_LENGTH ≤ length then some consumed else none
  | false, _, consumed, length, l =>
    if MAX_LENGTH ≤ length then some consumed
    else
      match l with
      | [] => none
      | c :: rest =>
        if c = NEWLINE ∨ c = CR then
          mlScan ctx f true 0 (consumed + 1) (length + 1) rest
        else if c = BACKSLASH then
          match rest with
          | [] => mlScan ctx f false 0 (consumed + 1) (length + 2) []
          | _ :: rest2 => mlScan ctx f false 0 (consumed + 2) (length + 2) rest2
        else
          mlScan ctx f false 0 (consumed + 1) (length + 1) rest

/-- The `multilineStrings` external tokenizer: an opening fence of three
identical quote or backtick characters, which must be followed by a line
terminator or end of input, then the body loop. On accept, returns the
token kind and the total number of characters in the token span. -/
def multilineStrings (ctx : Int) (l : List Int) : Option (MLKind × Nat) :=
  match l with
  | a :: b :: c :: rest =>
    if (a = QUOTE ∨ a = BACKTICK) ∧ b = a ∧ c = a then
      let kind := if a = QUOTE then MLKind.BlockString else MLKind.FoldedString
      match rest with
      | [] => (mlScan ctx a false 0 0 0 []).map (fun n => (kind, 3 + n))
      | d :: _ =>
        if d = NEWLINE ∨ d = CR then
          (mlScan ctx a false 0 0 0 rest).map (fun n => (kind, 3 + n))
        else none
    else none
  | _ => none

/-- The identifier-run loop of the `keyToken` tokenizer: length of the
initial run of letter/digit/underscore/dash characters. -/
def keyRun : List Int → Nat
  | [] => 0
  | c :: rest => if isAlphaNum c then keyRun rest + 1 else 0

/-- The `keyToken` external tokenizer: starts on a letter or underscore,
continues through letters/digits/underscores/dashes, and declines when
the matched span is exactly one of the reserved words
true/false/null/nan/inf (checked by character codes, as in the source). -/
def keyToken (l : List Int) : Option Nat :=
  match l with
  | [] => none
  | c :: rest =>
    if isAlpha c = false then none
    else
      let pos := 1 + keyRun rest
      if pos ≤ 5 ∧
          ((pos = 4 ∧ l.take 4 = [116, 114, 117, 101]) ∨
           (pos = 5 ∧ l.take 5 = [102, 97, 108, 115, 101]) ∨
           (pos = 4 ∧ l.take 4 = [110, 117, 108, 108]) ∨
           (pos = 3 ∧ l.take 3 = [110, 97, 110]) ∨
           (pos = 3 ∧ l.take 3 = [105, 110, 102]))
      then none
      else some pos

/-- The `listMarkToken` external tokenizer: a single dash, declined when a
digit follows immediately (that case is left to the number scanner). -/
def listMarkToken (l : List Int) : Option Nat :=
  match l with
  | [] => none
  | c :: rest =>
    if c ≠ DASH then none
    else
      match rest with
      | d :: _ => if isDigit d then none else some 1
      | [] => some 1

/-- The scan loop of the `stringToken` tokenizer. `prev` is the character
immediately before the current position (the source inspects `peek(pos-1)`
to decide whether a quote is escaped); `pos` is the current offset from
the start of the token. Returns the accepted span length or `none`. -/
def strLoop : Int → List Int → Nat → Option Nat
  | _, [], _ => none
  | prev, next :: rest, pos =>
    if next = NEWLINE ∨ next = CR then none
    else if next = QUOTE ∧ prev ≠ BACKSLASH then some (pos + 1)
    else if next = BACKSLASH then
      match rest with
      | [] => none
      | esc :: rest2 =>
        if esc = LOWER_U then
          match rest2 with
          | h1 :: h2 :: h3 :: h4 :: rest3 =>
            if isHex h1 ∧ isHex h2 ∧ isHex h3 ∧ isHex h4 then
              strLoop h4 rest3 (pos + 6)
            else none
          | _ => none
        else if esc = QUOTE ∨ esc = BACKSLASH ∨ esc = 47 ∨ esc = 98 ∨
            esc = 102 ∨ esc = 110 ∨ esc = 114 ∨ esc = 116 then
          strLoop esc rest2 (pos + 2)
        else none
    else strLoop next rest (pos + 1)

/-- The `stringToken` external tokenizer: a double quote, then the scan
loop starting at offset 1 with the opening quote as the previous
character. -/
def stringToken (l : List Int) : Option Nat :=
  match l with
  | [] => none
  | c :: rest => if c = QUOTE then strLoop QUOTE rest 1 else none

/-- The digit run of the decimal mode: consumes digits and underscores,
returning the count together with whether an actual digit was seen. -/
def decRun : List Int → Nat × Bool
  | [] => (0, false)
  | d :: rest =>
    if isDigit d then ((decRun rest).1 + 1, true)
    else if d = UNDERSCORE then ((decRun rest).1 + 1, (decRun rest).2)
    else (0, false)

/-- The hex-mode digit run: count of the initial run of hex digits and
underscores. -/
def hexRun : List Int → Nat
  | [] => 0
  | d :: rest => if isHex d || decide (d = UNDERSCORE) then hexRun rest + 1 else 0

/-- The octal/binary digit-run loop, parameterized by the validity test of
the selected base: a valid digit or an underscore is consumed, a decimal
digit that is invalid for the base aborts the whole token (`none`), any
other character ends the run. Returns the count consumed and whether a
valid digit was seen. -/
def baseRun (valid : Int → Bool) : List Int → Option (Nat × Bool)
  | [] => some (0, false)
  | d :: rest =>
    if valid d then (baseRun valid rest).map (fun p => (p.1 + 1, true))
    else if d = UNDERSCORE then (baseRun valid rest).map (fun p => (p.1 + 1, p.2))
    else if isDigit d then none
    else some (0, false)

/-- Octal digit validity, as in the source: `d >= DIGIT_0 && d <= DIGIT_7`. -/
def octValid (d : Int) : Bool := decide (DIGIT_0 ≤ d ∧ d ≤ DIGIT_7)

/-- Binary digit validity, as in the source: `d === DIGIT_0 || d === DIGIT_1`. -/
def binValid (d : Int) : Bool := decide (d = DIGIT_0 ∨ d = DIGIT_1)

/-- The decimal mode of the number scanner, applied to the buffer suffix
starting right after the optional sign: integer digit run, then an
optional dot (the source increments `pos` past the dot before testing for
a fractional digit, so the dot is consumed whether or not fractional
digits follow), then an optional exponent; accepts only when a digit was
seen. Returns the span length measured from the start of this suffix. -/
def decimalTail (l : List Int) : Option Nat :=
  let r1 := decRun l
  let l1 := l.drop r1.1
  let fr : Nat × Bool :=
    match l1 with
    | d :: restf =>
      if d = DOT then
        match restf with
        | e :: _ => if isDigit e then (1 + (decRun restf).1, true) else (1, false)
        | [] => (1, false)
      else (0, false)
    | [] => (0, false)
  let hasD := r1.2 || fr.2
  let pos2 := r1.1 + fr.1
  match l.drop pos2 with
  | e :: reste =>
    if e = LOWER_E ∨ e = UPPER_E then
      if hasD = false then none
      else
        match reste with
        | s :: rs =>
          if s = PLUS ∨ s = DASH then
            match rs with
            | d2 :: _ => if isDigit d2 then some (pos2 + 2 + (decRun rs).1) else none
            | [] => none
          else if isDigit s then some (pos2 + 1 + (decRun reste).1)
          else none
        | [] => none
    else if hasD then some pos2 else none
  | [] => if hasD then some pos2 else none

/-- The `numberToken` external tokenizer: optional sign, then either one
of the based modes selected by a `0x`/`0o`/`0b` prefix (hex requires the
first character after the prefix to be a hex digit; octal and binary run
through `baseRun`, which hard-declines on a decimal digit invalid for the
base and accepts only when a valid digit was seen) or the decimal mode.
Returns the span length of the accepted token. -/
def numberToken (l : List Int) : Option Nat :=
  match l with
  | [] => none
  | c0 :: rest0 =>
    let signN : Nat := if c0 = PLUS ∨ c0 = DASH then 1 else 0
    let l1 := if c0 = PLUS ∨ c0 = DASH then rest0 else l
    match l1 with
    | [] => none
    | c :: rest =>
      if isDigit c = false then none
      else if c = DIGIT_0 then
        match rest with
        | x :: rest2 =>
          if x = LOWER_X ∨ x = UPPER_X then
            match rest2 with
            | h :: _ => if isHex h then some (signN + 2 + hexRun rest2) else none
            | [] => none
          else if x = LOWER_O ∨ x = UPPER_O then
            match baseRun octValid rest2 with
            | none => none
            | some p => if p.2 then some (signN + 2 + p.1) else none
          else if x = LOWER_B ∨ x = UPPER_B then
            match baseRun binValid rest2 with
            | none => none
            | some p => if p.2 then some (signN + 2 + p.1) else none
          else (decimalTail l1).map (fun n => signN + n)
        | [] => (decimalTail l1).map (fun n => signN + n)
      else (decimalTail l1).map (fun n => signN + n)

/-- Lezer's `input.peek(i)` relative to a buffer suffix: the character at
offset `i`, or `-1` past the end of the input. -/
def peekc (l : List Int) (i : Nat) : Int := (l.drop i).headD (-1)

/-- Whether the next four characters are all hex digits (a short suffix
fails, since peeking past the end yields `-1`, which is not a hex digit). -/
def hex4 : List Int → Bool
  | a :: b :: c :: d :: _ => isHex a && isHex b && isHex c && isHex d
  | _ => false

/-- A character that is ordinary inside a single-line string body: not a
quote, not a backslash, not a line terminator. -/
abbrev strClean (x : Int) : Prop :=
  x ≠ QUOTE ∧ x ≠ BACKSLASH ∧ x ≠ NEWLINE ∧ x ≠ CR

/-- States `(buffer suffix, context)` reachable while tokenizing from a
fresh parse (context 0): the `line` step consumes an indentation-class
token and shifts the context through the tracker; the `other` step models
any other scanner accepting (those scanners never touch the context, and
the tracker's shift leaves the context unchanged on their terms). -/
inductive Reach : List Int → Int → Prop where
  | start (l : List Int) : Reach l 0
  | line {l : List Int} {ctx : Int} {t : Tok} {n : Nat} :
      Reach l ctx → indentation ctx l = some (t, n) →
      Reach (l.drop n) (shift ctx t)
  | other {l : List Int} {ctx : Int} (n : Nat) :
      Reach l ctx → Reach (l.drop n) ctx

-- ----------------------------------------------------------------------
-- Lemmas
-- ----------------------------------------------------------------------

theorem countWs_ws_append (w : List Int) (hw : ∀ x ∈ w, x = SPACE ∨ x = TAB)
    (d : Int) (hd1 : d ≠ SPACE) (hd2 : d ≠ TAB) (rest : List Int) :
    countWs (w ++ d :: rest) = (w.length, d :: rest) := by
  induction w with
  | nil => simp [countWs, hd1, hd2]
  | cons x w ih =>
    have hx : x = SPACE ∨ x = TAB := hw x (List.mem_cons_self x w)
    have hrec := ih (fun y hy => hw y (List.mem_cons_of_mem x hy))
    simp only [List.cons_append, countWs, List.length_cons, List.append_eq]
    rw [if_pos hx, hrec]

theorem countWs_ws_all (w : List Int) (hw : ∀ x ∈ w, x = SPACE ∨ x = TAB) :
    countWs w = (w.length, []) := by
  induction w with
  | nil => simp [countWs]
  | cons x w ih =>
    have hx : x = SPACE ∨ x = TAB := hw x (List.mem_cons_self x w)
    have hrec := ih (fun y hy => hw y (List.mem_cons_of_mem x hy))
    simp only [countWs, List.length_cons]
    rw [if_pos hx, hrec]

theorem indentation_line (ctx : Int) (term : Int)
    (hterm : term = NEWLINE ∨ term = CR)
    (w : List Int) (hw : ∀ x ∈ w, x = SPACE ∨ x = TAB)
    (d : Int) (hd1 : d ≠ NEWLINE) (hd2 : d ≠ CR) (hd3 : d ≠ SPACE)
    (hd4 : d ≠ TAB) (rest : List Int) :
    indentation ctx (term :: (w ++ d :: rest)) =
      (if ctx < (w.length : Int) then some (Tok.Indent, 1 + w.length)
       else if (w.length : Int) < ctx then some (Tok.Dedent, 0)
       else some (Tok.Newline, 1 + w.length)) := by
  have hc : ¬(term ≠ NEWLINE ∧ term ≠ CR) := by tauto
  simp only [indentation]
  rw [if_neg hc, countWs_ws_append w hw d hd3 hd4 rest]
  simp [hd1, hd2]

theorem indentation_blank (ctx : Int) (term : Int)
    (hterm : term = NEWLINE ∨ term = CR)
    (w : List Int) (hw : ∀ x ∈ w, x = SPACE ∨ x = TAB)
    (t : Int) (ht : t = NEWLINE ∨ t = CR) (rest : List Int) :
    indentation ctx (term :: (w ++ t :: rest)) = some (Tok.Newline, 1) := by
  have hc : ¬(term ≠ NEWLINE ∧ term ≠ CR) := by tauto
  have ht1 : t ≠ SPACE := by rcases ht with rfl | rfl <;> decide
  have ht2 : t ≠ TAB := by rcases ht with rfl | rfl <;> decide
  simp only [indentation]
  rw [if_neg hc, countWs_ws_append w hw t ht1 ht2 rest]
  simp [ht]

theorem indentation_trailing_ws (ctx : Int) (term : Int)
    (hterm : term = NEWLINE ∨ term = CR)
    (w : List Int) (hw : ∀ x ∈ w, x = SPACE ∨ x = TAB) :
    indentation ctx (term :: w) = some (Tok.Newline, 1) := by
  have hc : ¬(term ≠ NEWLINE ∧ term ≠ CR) := by tauto
  simp only [indentation]
  rw [if_neg hc, countWs_ws_all w hw]

theorem indentation_eof (ctx : Int) (h : 0 < ctx) :
    indentation ctx [] = some (Tok.Dedent, 0) := by
  simp [indentation, h]

theorem indentation_dedent_pos {ctx : Int} {l : List Int} {n : Nat}
    (h : indentation ctx l = some (Tok.Dedent, n)) : 0 < ctx := by
  cases l with
  | nil =>
    simp only [indentation] at h
    split at h
    · assumption
    · exact absurd h (by simp)
  | cons c rest =>
    simp only [indentation] at h
    split at h
    · exact absurd h (by simp)
    · rcases hcw : countWs rest with ⟨spaces, after⟩
      rw [hcw] at h
      cases after with
      | nil => simp at h
      | cons d tl =>
        simp only at h
        split at h
        · simp at h
        · split at h
          · simp at h
          · split at h
            · rename_i hlt
              have h0 : (0 : Int) ≤ (spaces : Int) := Int.ofNat_nonneg spaces
              omega
            · simp at h

theorem shift_indent (c : Int) : shift c Tok.Indent = c + 2 := by simp [shift]

theorem shift_dedent (c : Int) : shift c Tok.Dedent = c - 2 := by simp [shift]

theorem shift_newline (c : Int) : shift c Tok.Newline = c := by simp [shift]

theorem shift_other (c : Int) : shift c Tok.Other = c := by simp [shift]

theorem reach_nonneg_even {l : List Int} {ctx : Int} (h : Reach l ctx) :
    0 ≤ ctx ∧ (2 : Int) ∣ ctx := by
  induction h with
  | start l => exact ⟨le_refl 0, Dvd.intro 0 rfl⟩
  | line hr htok ih =>
    rcases ih with ⟨h0, h2⟩
    rename_i l ctx t n
    cases t with
    | Indent =>
      rw [shift_indent]
      exact ⟨by omega, dvd_add h2 (dvd_refl 2)⟩
    | Dedent =>
      have hpos : 0 < ctx := indentation_dedent_pos htok
      rcases h2 with ⟨m, rfl⟩
      rw [shift_dedent]
      exact ⟨by omega, ⟨m - 1, by ring⟩⟩
    | Newline => rw [shift_newline]; exact ⟨h0, h2⟩
    | Other => rw [shift_other]; exact ⟨h0, h2⟩
  | other n hr ih => exact ih

-- ----------------------------------------------------------------------
-- Claim C2
-- ----------------------------------------------------------------------

/-- Claim C2, counterexample: on the buffer consisting of a newline
followed by two spaces and then end of input, under context 0, the
leading-whitespace count 2 exceeds the context 0, yet the scanner accepts
a Newline consuming one character (the blank-line rule fires before the
comparison), not an Indent consuming the terminator plus the whitespace
run as the claim states. -/
theorem claim2_counterexample :
    indentation 0 [NEWLINE, SPACE, SPACE] = some (Tok.Newline, 1) ∧
    some (Tok.Newline, 1) ≠ some (Tok.Indent, 1 + 2) ∧ (0 : Int) < 2 := by
  refine ⟨by decide, by decide, by decide⟩

/-- Claim C2 (amended): when the character following the whitespace run is
neither a line terminator nor end of input, the scanner accepts Indent
consuming terminator plus whitespace when `spaces > context`, a zero-width
Dedent when `spaces < context`, and Newline consuming terminator plus
whitespace when `spaces == context`; at end of input with positive context
it accepts a zero-width Dedent; but when the whitespace run is followed by
another line terminator or end of input (a blank line) it accepts Newline
consuming exactly one character, regardless of the comparison. -/
theorem claim2_line_boundary_amended :
    (∀ (ctx : Int) (term : Int) (w : List Int) (d : Int) (rest : List Int),
      (term = NEWLINE ∨ term = CR) → (∀ x ∈ w, x = SPACE ∨ x = TAB) →
      d ≠ NEWLINE → d ≠ CR → d ≠ SPACE → d ≠ TAB →
      indentation ctx (term :: (w ++ d :: rest)) =
        (if ctx < (w.length : Int) then some (Tok.Indent, 1 + w.length)
         else if (w.length : Int) < ctx then some (Tok.Dedent, 0)
         else some (Tok.Newline, 1 + w.length))) ∧
    (∀ ctx : Int, 0 < ctx → indentation ctx [] = some (Tok.Dedent, 0)) ∧
    (∀ (ctx : Int) (term : Int) (w : List Int) (t : Int) (rest : List Int),
      (term = NEWLINE ∨ term = CR) → (∀ x ∈ w, x = SPACE ∨ x = TAB) →
      (t = NEWLINE ∨ t = CR) →
      indentation ctx (term :: (w ++ t :: rest)) = some (Tok.Newline, 1)) ∧
    (∀ (ctx : Int) (term : Int) (w : List Int),
      (term = NEWLINE ∨ term = CR) → (∀ x ∈ w, x = SPACE ∨ x = TAB) →
      indentation ctx (term :: w) = some (Tok.Newline, 1)) := by
  refine ⟨?_, ?_, ?_, ?_⟩
  · intro ctx term w d rest ht hw h1 h2 h3 h4
    exact indentation_line ctx term ht w hw d h1 h2 h3 h4 rest
  · intro ctx h
    exact indentation_eof ctx h
  · intro ctx term w t rest ht hw htt
    exact indentation_blank ctx term ht w hw t htt rest
  · intro ctx term w ht hw
    exact indentation_trailing_ws ctx term ht w hw

/-- Witness for the amended C2 theorem: concrete instances of each case. -/
theorem claim2_witness :
    indentation 0 [NEWLINE, SPACE, SPACE, 97] = some (Tok.Indent, 3) ∧
    indentation 4 [NEWLINE, SPACE, SPACE, 97] = some (Tok.Dedent, 0) ∧
    indentation 2 [NEWLINE, SPACE, SPACE, 97] = some (Tok.Newline, 3) ∧
    indentation 2 [] = some (Tok.Dedent, 0) := by
  have h1 := claim2_line_boundary_amended.1 0 NEWLINE [SPACE, SPACE] 97 []
    (Or.inl rfl) (by decide) (by decide) (by decide) (by decide) (by decide)
  have h2 := claim2_line_boundary_amended.1 4 NEWLINE [SPACE, SPACE] 97 []
    (Or.inl rfl) (by decide) (by decide) (by decide) (by decide) (by decide)
  have h3 := claim2_line_boundary_amended.1 2 NEWLINE [SPACE, SPACE] 97 []
    (Or.inl rfl) (by decide) (by decide) (by decide) (by decide) (by decide)
  have h4 := claim2_line_boundary_amended.2.1 2 (by decide)
  refine ⟨?_, ?_, ?_, h4⟩
  · simpa using h1
  · simpa using h2
  · simpa using h3

-- ----------------------------------------------------------------------
-- Claim C3
-- ----------------------------------------------------------------------

/-- Claim C3: along every sequence of tokens the indentation tokenizer can
emit starting from context 0, the context stays a non-negative multiple of
the step size 2; the tracker's shift adds exactly 2 on Indent, subtracts
exactly 2 on Dedent, and leaves the context unchanged on every other
token; and the scanner never emits a Dedent when the context is not
positive (so no clamping is ever exercised). -/
theorem claim3_context_invariant :
    ∀ (l : List Int) (ctx : Int), Reach l ctx →
      (0 ≤ ctx ∧ (2 : Int) ∣ ctx ∧
        (∀ n : Nat, indentation ctx l = some (Tok.Dedent, n) → 0 < ctx)) ∧
      (∀ c : Int, shift c Tok.Indent = c + 2 ∧ shift c Tok.Dedent = c - 2 ∧
        shift c Tok.Newline = c ∧ shift c Tok.Other = c) := by
  intro l ctx h
  refine ⟨⟨(reach_nonneg_even h).1, (reach_nonneg_even h).2,
    fun n hn => indentation_dedent_pos hn⟩, ?_⟩
  intro c
  exact ⟨by simp [shift], by simp [shift], by simp [shift], by simp [shift]⟩

/-- Witness for C3 at the initial state. -/
theorem claim3_witness :
    (0 : Int) ≤ 0 ∧ (2 : Int) ∣ 0 ∧
      (indentation 0 [] = some (Tok.Dedent, 0) → (0 : Int) < 0) := by
  have h := claim3_context_invariant [] 0 (Reach.start [])
  exact ⟨h.1.1, h.1.2.1, h.1.2.2 0⟩

-- ----------------------------------------------------------------------
-- Claim C10
-- ----------------------------------------------------------------------

/-- Claim C10: whenever the leading-whitespace count of a non-blank line
exceeds the context by any amount, the scanner emits a single Indent
consuming the terminator plus the whole whitespace run, and the tracker
advances the context by exactly 2 — so the tracked context can be strictly
below the column count. Under tracked context 2, a multiline-string
closing fence line indented 2 closes the block while one indented 5 makes
the scanner decline: the fence must match the tracked value, not the
column count. -/
theorem claim10_over_indent :
    (∀ (ctx : Int) (term : Int) (w : List Int) (d : Int) (rest : List Int),
      (term = NEWLINE ∨ term = CR) → (∀ x ∈ w, x = SPACE ∨ x = TAB) →
      d ≠ NEWLINE → d ≠ CR → d ≠ SPACE → d ≠ TAB → ctx < (w.length : Int) →
      indentation ctx (term :: (w ++ d :: rest)) =
        some (Tok.Indent, 1 + w.length) ∧
      shift ctx Tok.Indent = ctx + 2) ∧
    multilineStrings 2
      [QUOTE, QUOTE, QUOTE, NEWLINE, SPACE, SPACE, QUOTE, QUOTE, QUOTE] =
      some (MLKind.BlockString, 9) ∧
    multilineStrings 2
      [QUOTE, QUOTE, QUOTE, NEWLINE, SPACE, SPACE, SPACE, SPACE, SPACE,
       QUOTE, QUOTE, QUOTE] = none := by
  refine ⟨?_, by decide, by decide⟩
  intro ctx term w d rest ht hw h1 h2 h3 h4 hlt
  refine ⟨?_, by simp [shift]⟩
  rw [indentation_line ctx term ht w hw d h1 h2 h3 h4 rest, if_pos hlt]

/-- Witness for C10: a first line indented 5 spaces under context 0 yields
one Indent consuming 6 characters, and the context advances to 2, which is
strictly below the column count 5. -/
theorem claim10_witness :
    indentation 0 [NEWLINE, SPACE, SPACE, SPACE, SPACE, SPACE, 97] =
      some (Tok.Indent, 6) ∧
    shift 0 Tok.Indent = 2 ∧ (2 : Int) < 5 := by
  have h := claim10_over_indent.1 0 NEWLINE [SPACE, SPACE, SPACE, SPACE, SPACE]
    97 [] (Or.inl rfl) (by decide) (by decide) (by decide) (by decide)
    (by decide) (by decide)
  exact ⟨by simpa using h.1, by simpa using h.2, by decide⟩

-- ----------------------------------------------------------------------
-- Claim C1
-- ----------------------------------------------------------------------

theorem mlScan_ws (ctx f : Int) (w : List Int)
    (hw : ∀ x ∈ w, x = SPACE ∨ x = TAB) :
    ∀ (ind consumed length : Nat) (l : List Int),
      mlScan ctx f true ind consumed length (w ++ l) =
        mlScan ctx f true (ind + w.length) (consumed + w.length)
          (length + w.length) l := by
  induction w with
  | nil => intro ind consumed length l; simp
  | cons x w ih =>
    intro ind consumed length l
    have hx : x = SPACE ∨ x = TAB := hw x (List.mem_cons_self x w)
    have hrec := ih (fun y hy => hw y (List.mem_cons_of_mem x hy))
      (ind + 1) (consumed + 1) (length + 1) l
    have step : ∀ t : List Int, mlScan ctx f true ind consumed length (x :: t) =
        mlScan ctx f true (ind + 1) (consumed + 1) (length + 1) t := by
      intro t
      cases t with
      | nil => rw [mlScan.eq_1, if_pos hx]
      | cons c1 r => rw [mlScan.eq_2, if_pos hx]
    rw [List.cons_append, step, hrec, List.length_cons]
    congr 1 <;> omega

theorem mlScan_fence (ctx f : Int) (hf1 : f ≠ SPACE) (hf2 : f ≠ TAB)
    (ind consumed length : Nat) (rest : List Int) :
    mlScan ctx f true ind consumed length (f :: f :: f :: rest) =
      (if (ind : Int) = ctx then some (consumed + 3) else none) := by
  simp only [mlScan]
  rw [if_neg (by tauto), if_pos (by simp [fenceAt])]

/-- Claim C1, counterexample: under context 0, the input opens a block
fence, has a fence line indented one column (which does not match the
context), and then a correctly indented closing fence at column 0 — the
claim says the wrongly indented fence line becomes body content and the
scanner accepts at the later fence, but the scanner declines the whole
token. -/
theorem claim1_counterexample :
    multilineStrings 0
      [QUOTE, QUOTE, QUOTE, NEWLINE, SPACE, QUOTE, QUOTE, QUOTE, NEWLINE,
       QUOTE, QUOTE, QUOTE] = none := by
  decide

/-- Claim C1 (amended): when a line terminator inside the body is followed
by a whitespace run and then three fence characters, the fence closes the
token only if the whitespace column count equals the currently active
indentation context; if the column count does not match, the scanner
declines the whole token immediately (whatever comes later in the buffer,
including a correctly indented closing fence); only when no fence follows
do the terminator and whitespace become ordinary body content and
scanning continue, as the final conjunct shows on a body line followed by
a correctly indented fence. -/
theorem claim1_fence_indent_amended :
    (∀ (ctx : Int) (f : Int) (w : List Int) (rest : List Int),
      (f = QUOTE ∨ f = BACKTICK) → (∀ x ∈ w, x = SPACE ∨ x = TAB) →
      ((w.length : Int) ≠ ctx →
        multilineStrings ctx
          (f :: f :: f :: NEWLINE :: (w ++ f :: f :: f :: rest)) = none) ∧
      ((w.length : Int) = ctx →
        multilineStrings ctx
          (f :: f :: f :: NEWLINE :: (w ++ f :: f :: f :: rest)) =
          some (if f = QUOTE then MLKind.BlockString else MLKind.FoldedString,
            7 + w.length))) ∧
    multilineStrings 0
      [QUOTE, QUOTE, QUOTE, NEWLINE, 97, NEWLINE, QUOTE, QUOTE, QUOTE] =
      some (MLKind.BlockString, 9) := by
  refine ⟨?_, by decide⟩
  intro ctx f w rest hf hw
  have hf1 : f ≠ SPACE := by rcases hf with rfl | rfl <;> decide
  have hf2 : f ≠ TAB := by rcases hf with rfl | rfl <;> decide
  have hopen : multilineStrings ctx
      (f :: f :: f :: NEWLINE :: (w ++ f :: f :: f :: rest)) =
      (mlScan ctx f false 0 0 0 (NEWLINE :: (w ++ f :: f :: f :: rest))).map
        (fun n =>
          (if f = QUOTE then MLKind.BlockString else MLKind.FoldedString,
            3 + n)) := by
    simp only [multilineStrings]
    rw [if_pos ⟨hf, trivial, trivial⟩]
    simp
  have hstep : ∀ t : List Int, mlScan ctx f false 0 0 0 (NEWLINE :: t) =
      mlScan ctx f true 0 1 1 t := by
    intro t
    cases t with
    | nil =>
      rw [mlScan.eq_5, if_neg (by decide), if_pos (Or.inl rfl)]
    | cons c1 r =>
      rw [mlScan.eq_6, if_neg (by decide), if_pos (Or.inl rfl)]
  have hws := mlScan_ws ctx f w hw 0 1 1 (f :: f :: f :: rest)
  have hfence := mlScan_fence ctx f hf1 hf2 (0 + w.length) (1 + w.length)
    (1 + w.length) rest
  constructor
  · intro hne
    rw [hopen, hstep, hws, hfence,
      if_neg (show ¬((0 + w.length : Nat) : Int) = ctx by simpa using hne)]
    rfl
  · intro heq
    rw [hopen, hstep, hws, hfence,
      if_pos (show ((0 + w.length : Nat) : Int) = ctx by simpa using heq)]
    simp only [Option.map_some', Option.some.injEq, Prod.mk.injEq]
    simp only [true_and, eq_self_iff_true]
    omega

/-- Witness for the amended C1 theorem: under context 2 a closing fence at
column 0 does not match and the scanner declines; under context 0 the same
closing fence matches and the scanner accepts the 7-character token. -/
theorem claim1_witness :
    multilineStrings 2 [QUOTE, QUOTE, QUOTE, NEWLINE, QUOTE, QUOTE, QUOTE] =
      none ∧
    multilineStrings 0 [QUOTE, QUOTE, QUOTE, NEWLINE, QUOTE, QUOTE, QUOTE] =
      some (MLKind.BlockString, 7) := by
  have h1 := (claim1_fence_indent_amended.1 2 QUOTE [] [] (Or.inl rfl)
    (by decide)).1 (by decide)
  have h2 := (claim1_fence_indent_amended.1 0 QUOTE [] [] (Or.inl rfl)
    (by decide)).2 (by decide)
  exact ⟨by simpa using h1, by simpa using h2⟩

-- ----------------------------------------------------------------------
-- Claims C4, C5, C6
-- ----------------------------------------------------------------------

theorem baseRun_abort (valid : Int → Bool) (w : List Int)
    (hw : ∀ x ∈ w, valid x = true ∨ x = UNDERSCORE)
    (d : Int) (hd : isDigit d = true) (hdv : valid d = false)
    (rest : List Int) :
    baseRun valid (w ++ d :: rest) = none := by
  induction w with
  | nil =>
    have hdu : d ≠ UNDERSCORE := by
      intro h
      rw [h] at hd
      exact absurd hd (by decide)
    simp [baseRun, hdv, hdu, hd]
  | cons x w ih =>
    have hx := hw x (List.mem_cons_self x w)
    have hrec := ih (fun y hy => hw y (List.mem_cons_of_mem x hy))
    rcases hx with hx | hx
    · simp [baseRun, hx, hrec]
    · simp [baseRun, hx, hrec]

theorem decRun_digits (w : List Int) (hne : w ≠ [])
    (hw : ∀ x ∈ w, isDigit x = true) (d : Int) (hd1 : isDigit d = false)
    (hd2 : d ≠ UNDERSCORE) (rest : List Int) :
    decRun (w ++ d :: rest) = (w.length, true) := by
  induction w with
  | nil => exact absurd rfl hne
  | cons x w ih =>
    have hx := hw x (List.mem_cons_self x w)
    by_cases hwe : w = []
    · subst hwe
      simp [decRun, hx, hd1, hd2]
    · have hrec := ih hwe (fun y hy => hw y (List.mem_cons_of_mem x hy))
      simp [decRun, hx, hrec]

theorem numberToken_oct (tail : List Int) :
    numberToken (DIGIT_0 :: LOWER_O :: tail) =
      (match baseRun octValid tail with
       | none => none
       | some p => if p.2 then some (2 + p.1) else none) := rfl

theorem numberToken_bin (tail : List Int) :
    numberToken (DIGIT_0 :: LOWER_B :: tail) =
      (match baseRun binValid tail with
       | none => none
       | some p => if p.2 then some (2 + p.1) else none) := rfl

/-- Claim C4: in octal and binary modes, a decimal digit invalid for the
base anywhere in the digit run makes the whole token decline — no
truncated Number token is emitted — and in particular `0o759` accepts
nothing. -/
theorem claim4_invalid_digit_declines :
    (∀ (w : List Int), (∀ x ∈ w, octValid x = true ∨ x = UNDERSCORE) →
      ∀ (d : Int), isDigit d = true → octValid d = false →
      ∀ (rest : List Int),
        numberToken (DIGIT_0 :: LOWER_O :: (w ++ d :: rest)) = none) ∧
    (∀ (w : List Int), (∀ x ∈ w, binValid x = true ∨ x = UNDERSCORE) →
      ∀ (d : Int), isDigit d = true → binValid d = false →
      ∀ (rest : List Int),
        numberToken (DIGIT_0 :: LOWER_B :: (w ++ d :: rest)) = none) ∧
    numberToken [DIGIT_0, LOWER_O, DIGIT_7, 53, 57] = none := by
  refine ⟨?_, ?_, by decide⟩
  · intro w hw d hd hdv rest
    rw [numberToken_oct, baseRun_abort octValid w hw d hd hdv rest]
  · intro w hw d hd hdv rest
    rw [numberToken_bin, baseRun_abort binValid w hw d hd hdv rest]

/-- Witness for C4: the octal literal run `0o7` followed by the invalid
octal digit `8` declines, and the binary run `0b1` followed by `2`
declines. -/
theorem claim4_witness :
    numberToken [DIGIT_0, LOWER_O, DIGIT_7, 56] = none ∧
    numberToken [DIGIT_0, LOWER_B, DIGIT_1, 50] = none := by
  have h1 := claim4_invalid_digit_declines.1 [DIGIT_7] (by decide) 56
    (by decide) (by decide) []
  have h2 := claim4_invalid_digit_declines.2.1 [DIGIT_1] (by decide) 50
    (by decide) (by decide) []
  exact ⟨by simpa using h1, by simpa using h2⟩

theorem decimalTail_trailing_dot (w : List Int) (hne : w ≠ [])
    (hw : ∀ x ∈ w, isDigit x = true) (d : Int) (hd0 : isDigit d = false)
    (hd1 : d ≠ LOWER_E) (hd2 : d ≠ UPPER_E) (rest : List Int) :
    decimalTail (w ++ DOT :: d :: rest) = some (w.length + 1) := by
  have hr1 : decRun (w ++ DOT :: d :: rest) = (w.length, true) :=
    decRun_digits w hne hw DOT (by decide) (by decide) (d :: rest)
  have hdrop1 : (w ++ DOT :: d :: rest).drop w.length = DOT :: d :: rest := by
    simp
  have hdrop2 : (w ++ DOT :: d :: rest).drop (w.length + 1) = d :: rest := by
    have hsplit : w ++ DOT :: d :: rest = (w ++ [DOT]) ++ d :: rest := by simp
    rw [hsplit, show w.length + 1 = (w ++ [DOT]).length by simp, List.drop_left]
  simp only [decimalTail, hr1, hdrop1, hdrop2]
  simp [hd0, hd1, hd2]

/-- Claim C5, counterexample: the input `1.` is accepted with span length
2 — the trailing dot with no fractional digits is part of the accepted
Number span, contradicting the claim that it never is. -/
theorem claim5_counterexample :
    numberToken [DIGIT_1, DOT] = some 2 ∧ some (2 : Nat) ≠ some 1 := by
  exact ⟨by decide, by decide⟩

/-- Claim C5 (amended): a decimal token is an integer digit run, then an
optional dot — which is consumed into the span even when no fractional
digits follow it — then optional fractional digits, then an optional
exponent; a token is accepted only when a digit was seen, and a bare sign
or bare dot never accepts. The first conjunct exhibits the amended span
rule: digits, then a dot not followed by a digit, accept with the dot as
the last character of the span. -/
theorem claim5_decimal_shape :
    (∀ (w : List Int), w ≠ [] → (∀ x ∈ w, isDigit x = true) →
      ∀ (d : Int), isDigit d = false → d ≠ LOWER_E → d ≠ UPPER_E →
      ∀ (rest : List Int),
        decimalTail (w ++ DOT :: d :: rest) = some (w.length + 1)) ∧
    (∀ rest : List Int, numberToken (DOT :: rest) = none) ∧
    (∀ rest : List Int, numberToken (PLUS :: DOT :: rest) = none) ∧
    (∀ rest : List Int, numberToken (DASH :: DOT :: rest) = none) ∧
    numberToken [PLUS] = none ∧ numberToken [DASH] = none := by
  refine ⟨?_, ?_, ?_, ?_, by decide, by decide⟩
  · intro w hne hw d hd0 hd1 hd2 rest
    exact decimalTail_trailing_dot w hne hw d hd0 hd1 hd2 rest
  · intro rest; rfl
  · intro rest; rfl
  · intro rest; rfl

/-- Witness for the amended C5 theorem: `1.` followed by a space gives the
decimal mode span `1.` of length 2, and a bare dot declines. -/
theorem claim5_witness :
    decimalTail [DIGIT_1, DOT, SPACE] = some 2 ∧
    numberToken [DOT] = none := by
  have h1 := claim5_decimal_shape.1 [DIGIT_1] (by decide) (by decide) SPACE
    (by decide) (by decide) (by decide) []
  have h2 := claim5_decimal_shape.2.1 []
  exact ⟨by simpa using h1, h2⟩

/-- Claim C6, counterexample: `0x1_` is accepted with span length 4 — the
trailing underscore is part of the accepted hex literal, contradicting the
claim that `0x1_` is not accepted as shown. -/
theorem claim6_counterexample :
    numberToken [DIGIT_0, LOWER_X, DIGIT_1, UNDERSCORE] = some 4 := by
  decide

/-- Claim C6 (amended): the hex mode requires the first character after
the prefix to be a hex digit, so an underscore immediately after `0x`
declines; but a trailing underscore is consumed into an accepted hex span,
and the octal and binary modes accept underscores anywhere in the run —
immediately after the prefix and at the end — provided at least one valid
digit occurs. -/
theorem claim6_underscore_rules :
    (∀ rest : List Int,
      numberToken (DIGIT_0 :: LOWER_X :: UNDERSCORE :: rest) = none) ∧
    numberToken [DIGIT_0, LOWER_X, DIGIT_1, UNDERSCORE] = some 4 ∧
    numberToken [DIGIT_0, LOWER_O, UNDERSCORE, DIGIT_7] = some 4 ∧
    numberToken [DIGIT_0, LOWER_O, DIGIT_7, UNDERSCORE] = some 4 ∧
    numberToken [DIGIT_0, LOWER_B, UNDERSCORE, DIGIT_1] = some 4 ∧
    numberToken [DIGIT_0, LOWER_B, DIGIT_1, UNDERSCORE] = some 4 := by
  refine ⟨?_, by decide, by decide, by decide, by decide, by decide⟩
  intro rest
  rfl

/-- Witness for the amended C6 theorem: the hex prefix followed by an
underscore then a hex digit (`0x_1`) declines. -/
theorem claim6_witness :
    numberToken [DIGIT_0, LOWER_X, UNDERSCORE, DIGIT_1] = none :=
  claim6_underscore_rules.1 [DIGIT_1]

-- ----------------------------------------------------------------------
-- Claims C7, C8
-- ----------------------------------------------------------------------

theorem strLoop_nil (prev : Int) (pos : Nat) : strLoop prev [] pos = none := rfl

theorem strLoop_cons (prev next : Int) (rest : List Int) (pos : Nat) :
    strLoop prev (next :: rest) pos =
      (if next = NEWLINE ∨ next = CR then none
      else if next = QUOTE ∧ prev ≠ BACKSLASH then some (pos + 1)
      else if next = BACKSLASH then
        (match rest with
         | [] => none
         | esc :: rest2 =>
           if esc = LOWER_U then
             (match rest2 with
             | h1 :: h2 :: h3 :: h4 :: rest3 =>
               if isHex h1 ∧ isHex h2 ∧ isHex h3 ∧ isHex h4 then
                 strLoop h4 rest3 (pos + 6)
               else none
             | _ => none)
           else if esc = QUOTE ∨ esc = BACKSLASH ∨ esc = 47 ∨ esc = 98 ∨
               esc = 102 ∨ esc = 110 ∨ esc = 114 ∨ esc = 116 then
             strLoop esc rest2 (pos + 2)
           else none)
      else strLoop next rest (pos + 1)) := by
  cases rest with
  | nil => rfl
  | cons esc rest2 =>
    cases rest2 with
    | nil => rfl
    | cons a r1 =>
      cases r1 with
      | nil => rfl
      | cons b r2 =>
        cases r2 with
        | nil => rfl
        | cons c r3 =>
          cases r3 with
          | nil => rfl
          | cons d r4 => rfl

theorem drop_succ_of_drop_cons {l : List Int} {p : Nat} {x : Int}
    {t : List Int} (h : l.drop p = x :: t) : l.drop (p + 1) = t := by
  rw [← List.drop_drop, h]
  rfl

theorem peekc_of_drop_cons {l : List Int} {p : Nat} {x : Int}
    {t : List Int} (h : l.drop p = x :: t) : peekc l p = x := by
  simp [peekc, h]

theorem strLoop_accept_shape (l : List Int) :
    ∀ (prev : Int) (rest : List Int) (pos : Nat),
      1 ≤ pos → rest = l.drop pos → prev = peekc l (pos - 1) →
      ∀ n : Nat, strLoop prev rest pos = some n →
      2 ≤ n ∧ peekc l (n - 1) = QUOTE ∧ peekc l (n - 2) ≠ BACKSLASH := by
  intro prev rest pos
  induction prev, rest, pos using strLoop.induct with
  | case1 prev pos =>
    intro hpos hrest hprev n h
    rw [strLoop_nil] at h
    exact Option.noConfusion h
  | case2 prev next rest pos hnl =>
    intro hpos hrest hprev n h
    rw [strLoop_cons, if_pos hnl] at h
    exact Option.noConfusion h
  | case3 prev next rest pos hnl hq =>
    intro hpos hrest hprev n h
    rw [strLoop_cons, if_neg hnl, if_pos hq] at h
    have hn : n = pos + 1 := by
      have := Option.some.inj h
      omega
    subst hn
    have hdrop : l.drop pos = next :: rest := hrest.symm
    refine ⟨by omega, ?_, ?_⟩
    · have hp : pos + 1 - 1 = pos := by omega
      rw [hp, peekc_of_drop_cons hdrop]
      exact hq.1
    · have hp : pos + 1 - 2 = pos - 1 := by omega
      rw [hp, ← hprev]
      exact hq.2
  | case4 prev pos hn1 hn2 =>
    intro hpos hrest hprev n h
    rw [strLoop_cons, if_neg hn1, if_neg hn2, if_pos rfl] at h
    exact Option.noConfusion h
  | case5 prev pos a b c d rest3 hhex hn1 hn2 ih =>
    intro hpos hrest hprev n h
    rw [strLoop_cons, if_neg hn1, if_neg hn2, if_pos rfl] at h
    simp only [if_pos rfl] at h
    rw [if_pos hhex] at h
    have hdrop0 : l.drop pos = BACKSLASH :: LOWER_U :: a :: b :: c :: d :: rest3 :=
      hrest.symm
    have hd1 := drop_succ_of_drop_cons hdrop0
    have hd2 := drop_succ_of_drop_cons hd1
    have hd3 := drop_succ_of_drop_cons hd2
    have hd4 := drop_succ_of_drop_cons hd3
    have hd5 := drop_succ_of_drop_cons hd4
    have hd6 := drop_succ_of_drop_cons hd5
    have hpk : peekc l (pos + 5) = d := peekc_of_drop_cons hd5
    refine ih (by omega) ?_ ?_ n h
    · have : pos + 5 + 1 = pos + 6 := by omega
      rw [← this]
      exact hd6.symm
    · have : pos + 6 - 1 = pos + 5 := by omega
      rw [this, hpk]
  | case6 prev pos a b c d rest3 hhex hn1 hn2 =>
    intro hpos hrest hprev n h
    rw [strLoop_cons, if_neg hn1, if_neg hn2, if_pos rfl] at h
    simp only [if_pos rfl] at h
    rw [if_neg hhex] at h
    exact Option.noConfusion h
  | case7 prev pos rest hshape hn1 hn2 =>
    intro hpos hrest hprev n h
    rw [strLoop_cons, if_neg hn1, if_neg hn2, if_pos rfl] at h
    simp only [if_pos rfl] at h
    rcases rest with _ | ⟨a, _ | ⟨b, _ | ⟨c, _ | ⟨d, r⟩⟩⟩⟩
    · exact Option.noConfusion h
    · exact Option.noConfusion h
    · exact Option.noConfusion h
    · exact Option.noConfusion h
    · exact absurd rfl (hshape a b c d r)
  | case8 prev pos c rest hne hset hn1 hn2 ih =>
    intro hpos hrest hprev n h
    rw [strLoop_cons, if_neg hn1, if_neg hn2, if_pos rfl] at h
    simp only [if_neg hne] at h
    rw [if_pos hset] at h
    have hdrop0 : l.drop pos = BACKSLASH :: c :: rest := hrest.symm
    have hd1 := drop_succ_of_drop_cons hdrop0
    have hd2 := drop_succ_of_drop_cons hd1
    have hpk : peekc l (pos + 1) = c := peekc_of_drop_cons hd1
    refine ih (by omega) ?_ ?_ n h
    · have : pos + 1 + 1 = pos + 2 := by omega
      rw [← this]
      exact hd2.symm
    · have : pos + 2 - 1 = pos + 1 := by omega
      rw [this, hpk]
  | case9 prev pos c rest hne hset hn1 hn2 =>
    intro hpos hrest hprev n h
    rw [strLoop_cons, if_neg hn1, if_neg hn2, if_pos rfl] at h
    simp only [if_neg hne] at h
    rw [if_neg hset] at h
    exact Option.noConfusion h
  | case10 prev next rest pos hn1 hn2 hn3 ih =>
    intro hpos hrest hprev n h
    rw [strLoop_cons, if_neg hn1, if_neg hn2, if_neg hn3] at h
    have hdrop0 : l.drop pos = next :: rest := hrest.symm
    have hd1 := drop_succ_of_drop_cons hdrop0
    have hpk : peekc l pos = next := peekc_of_drop_cons hdrop0
    refine ih (by omega) hd1.symm ?_ n h
    have : pos + 1 - 1 = pos := by omega
    rw [this, hpk]

/-- Claim C7: whenever the string scanner accepts a span, the span ends at
a double quote whose immediately preceding character is not a backslash —
the closing quote is recognized exactly by that look-back test — and
consequently on a body ending in an escaped backslash directly before a
quote (here `"a\\"` followed by a newline) that quote is not treated as
closing and the scanner does not accept there. -/
theorem claim7_escaped_quote :
    (∀ (l : List Int) (n : Nat), stringToken l = some n →
      2 ≤ n ∧ peekc l (n - 1) = QUOTE ∧ peekc l (n - 2) ≠ BACKSLASH) ∧
    stringToken [QUOTE, 97, BACKSLASH, BACKSLASH, QUOTE, NEWLINE] = none := by
  refine ⟨?_, by decide⟩
  intro l n h
  rcases l with _ | ⟨c, rest⟩
  · exact Option.noConfusion h
  · simp only [stringToken] at h
    split at h
    · rename_i hc
      subst hc
      exact strLoop_accept_shape (QUOTE :: rest) QUOTE rest 1 (by omega) rfl
        (by simp [peekc]) n h
    · exact Option.noConfusion h

/-- Witness for C7: the two-character string consisting of an opening and
a closing quote is accepted with span 2, and the span indeed ends at an
unescaped quote. -/
theorem claim7_witness :
    2 ≤ 2 ∧ peekc [QUOTE, QUOTE] 1 = QUOTE ∧
      peekc [QUOTE, QUOTE] 0 ≠ BACKSLASH :=
  claim7_escaped_quote.1 [QUOTE, QUOTE] 2 (by decide)

theorem strLoop_clean (body : List Int) (hb : ∀ x ∈ body, strClean x) :
    ∀ (prev : Int) (pos : Nat) (tail : List Int),
      strLoop prev (body ++ tail) pos =
        strLoop (body.getLastD prev) tail (pos + body.length) := by
  induction body with
  | nil => intro prev pos tail; simp
  | cons x body ih =>
    intro prev pos tail
    obtain ⟨h1, h2, h3, h4⟩ := hb x (List.mem_cons_self x body)
    have step : strLoop prev ((x :: body) ++ tail) pos =
        strLoop x (body ++ tail) (pos + 1) := by
      rw [List.cons_append, strLoop_cons, if_neg (by tauto),
        if_neg (by tauto), if_neg h2]
    rw [step, ih (fun y hy => hb y (List.mem_cons_of_mem x hy)) x (pos + 1) tail,
      List.getLastD_cons, List.length_cons]
    congr 1
    omega

theorem stringToken_quote (rest : List Int) :
    stringToken (QUOTE :: rest) = strLoop QUOTE rest 1 := rfl

/-- Claim C8: the string scanner declines entirely — no partial String
token — when end of input is reached before a closing quote, when a raw
line terminator appears before a closing quote, when a backslash is
followed by a character outside the fixed simple-escape set (also at end
of input), and when a unicode escape is not followed by four hex digits. -/
theorem claim8_string_declines :
    (∀ (body : List Int), (∀ x ∈ body, strClean x) →
      stringToken (QUOTE :: body) = none) ∧
    (∀ (body : List Int), (∀ x ∈ body, strClean x) →
      ∀ (t : Int), (t = NEWLINE ∨ t = CR) → ∀ (rest : List Int),
      stringToken (QUOTE :: (body ++ t :: rest)) = none) ∧
    (∀ (body : List Int), (∀ x ∈ body, strClean x) → ∀ (e : Int),
      e ≠ LOWER_U →
      ¬(e = QUOTE ∨ e = BACKSLASH ∨ e = 47 ∨ e = 98 ∨ e = 102 ∨ e = 110 ∨
        e = 114 ∨ e = 116) →
      ∀ (rest : List Int),
      stringToken (QUOTE :: (body ++ BACKSLASH :: e :: rest)) = none) ∧
    (∀ (body : List Int), (∀ x ∈ body, strClean x) →
      stringToken (QUOTE :: (body ++ [BACKSLASH])) = none) ∧
    (∀ (body : List Int), (∀ x ∈ body, strClean x) → ∀ (tl : List Int),
      hex4 tl = false →
      stringToken (QUOTE :: (body ++ BACKSLASH :: LOWER_U :: tl)) = none) := by
  have hbq : ¬(BACKSLASH = NEWLINE ∨ BACKSLASH = CR) := by decide
  have hbq2 : ∀ p : Int, ¬(BACKSLASH = QUOTE ∧ p ≠ BACKSLASH) := by
    intro p hcon
    exact absurd hcon.1 (by decide)
  refine ⟨?_, ?_, ?_, ?_, ?_⟩
  · intro body hb
    rw [stringToken_quote, ← List.append_nil body,
      strLoop_clean body hb QUOTE 1 [], strLoop_nil]
  · intro body hb t ht rest
    rw [stringToken_quote, strLoop_clean body hb QUOTE 1 (t :: rest),
      strLoop_cons, if_pos ht]
  · intro body hb e he hset rest
    rw [stringToken_quote,
      strLoop_clean body hb QUOTE 1 (BACKSLASH :: e :: rest),
      strLoop_cons, if_neg hbq, if_neg (hbq2 _), if_pos rfl]
    simp only [if_neg he]
    rw [if_neg hset]
  · intro body hb
    rw [stringToken_quote, strLoop_clean body hb QUOTE 1 [BACKSLASH],
      strLoop_cons, if_neg hbq, if_neg (hbq2 _), if_pos rfl]
  · intro body hb tl hh
    rw [stringToken_quote,
      strLoop_clean body hb QUOTE 1 (BACKSLASH :: LOWER_U :: tl),
      strLoop_cons, if_neg hbq, if_neg (hbq2 _), if_pos rfl]
    rcases tl with _ | ⟨a, _ | ⟨b, _ | ⟨c, _ | ⟨d, r⟩⟩⟩⟩
    · rfl
    · rfl
    · rfl
    · rfl
    · show (if isHex a ∧ isHex b ∧ isHex c ∧ isHex d then
          strLoop d r (1 + body.length + 6) else none) = none
      rw [if_neg]
      intro hcon
      obtain ⟨p1, p2, p3, p4⟩ := hcon
      simp [hex4, p1, p2, p3, p4] at hh

/-- Witness for C8: concrete declines for each case — unterminated `"a`,
raw newline inside `"a<newline>"`, invalid escape `"\x"`, trailing
backslash `"a\`, and the short unicode escape `"\u004"`. -/
theorem claim8_witness :
    stringToken [QUOTE, 97] = none ∧
    stringToken [QUOTE, 97, NEWLINE, QUOTE] = none ∧
    stringToken [QUOTE, BACKSLASH, 120, QUOTE] = none ∧
    stringToken [QUOTE, 97, BACKSLASH] = none ∧
    stringToken [QUOTE, BACKSLASH, LOWER_U, 48, 48, 52, QUOTE] = none := by
  refine ⟨?_, ?_, ?_, ?_, ?_⟩
  · exact claim8_string_declines.1 [97] (by decide)
  · have h := claim8_string_declines.2.1 [97] (by decide) NEWLINE
      (Or.inl rfl) [QUOTE]
    simpa using h
  · have h := claim8_string_declines.2.2.1 [] (by decide) 120 (by decide)
      (by decide) [QUOTE]
    simpa using h
  · have h := claim8_string_declines.2.2.2.1 [97] (by decide)
    simpa using h
  · have h := claim8_string_declines.2.2.2.2 [] (by decide) [48, 48, 52, QUOTE]
      (by decide)
    simpa using h

-- ----------------------------------------------------------------------
-- Claim C9
-- ----------------------------------------------------------------------

/-- Claim C9: every scanner in the embedding is a pure function of the
buffer suffix at the scan origin and the current indentation context, so
two invocations on equal buffer, offset and starting context produce the
same accept/decline outcome and the same token kind and span — and hence
tokenizing the same buffer twice from the same context yields identical
token sequences. In the shallow embedding this purity holds by
construction, exactly because the source scanners read only
`(input, stack.context)` and keep no other state. -/
theorem claim9_determinism :
    ∀ (l1 l2 : List Int) (ctx1 ctx2 : Int), l1 = l2 → ctx1 = ctx2 →
      indentation ctx1 l1 = indentation ctx2 l2 ∧
      multilineStrings ctx1 l1 = multilineStrings ctx2 l2 ∧
      keyToken l1 = keyToken l2 ∧
      listMarkToken l1 = listMarkToken l2 ∧
      stringToken l1 = stringToken l2 ∧
      numberToken l1 = numberToken l2 ∧
      (∀ t : Tok, shift ctx1 t = shift ctx2 t) := by
  intro l1 l2 ctx1 ctx2 hl hc
  subst hl
  subst hc
  exact ⟨rfl, rfl, rfl, rfl, rfl, rfl, fun t => rfl⟩

/-- Witness for C9 on a concrete buffer and context. -/
theorem claim9_witness :
    indentation 0 [NEWLINE, SPACE, 97] = indentation 0 [NEWLINE, SPACE, 97] ∧
    multilineStrings 0 [NEWLINE, SPACE, 97] =
      multilineStrings 0 [NEWLINE, SPACE, 97] ∧
    keyToken [NEWLINE, SPACE, 97] = keyToken [NEWLINE, SPACE, 97] ∧
    listMarkToken [NEWLINE, SPACE, 97] = listMarkToken [NEWLINE, SPACE, 97] ∧
    stringToken [NEWLINE, SPACE, 97] = stringToken [NEWLINE, SPACE, 97] ∧
    numberToken [NEWLINE, SPACE, 97] = numberToken [NEWLINE, SPACE, 97] ∧
    (∀ t : Tok, shift 0 t = shift 0 t) :=
  claim9_determinism [NEWLINE, SPACE, 97] [NEWLINE, SPACE, 97] 0 0 rfl rfl
